import Mathlib

/-!
Shallow embedding of `reg.py` (cycif_registration): spatial metadata queries,
the pairwise edge aligner (overlap geometry, registration cache, outlier
clamp), the layer aligner, and the compositor (`paste`).

Images are rectangular 2-D arrays of intensities, modelled as `List (List ℚ)`
(row-major).  Pixel positions and sizes are rationals (they arise from stage
position divided by pixel calibration).  External library primitives that the
source calls (`scipy.ndimage.shift`, `skimage.filters.laplace`,
`skimage.feature.register_translation`, `skimage.util.dtype.convert`) are
supplied as explicit function parameters bundled in `ImageLib`; everything
written in `reg.py` itself is translated directly.
-/

/-- A floating-point image: rows of pixel intensities. -/
abbrev Img := List (List ℚ)

/-- An unsigned-integer image (the mosaic canvas). -/
abbrev NatImg := List (List ℕ)

/-- Number of rows (`img.shape[0]`). -/
def imgHeight (img : List (List α)) : ℕ := img.length

/-- Number of columns (`img.shape[1]`), taken from the first row
(images are rectangular). -/
def imgWidth (img : List (List α)) : ℕ := (img.headD []).length

/-- Pixel lookup with a default value for out-of-range indices. -/
def pix2 (d : α) (t : List (List α)) (r c : ℕ) : α := (t.getD r []).getD c d

/-- Pixel lookup in a canvas (`ℕ`-valued). -/
def pixN (t : NatImg) (r c : ℕ) : ℕ := pix2 0 t r c

/-- Pixel lookup in a float image (`ℚ`-valued). -/
def pixQ (t : Img) (r c : ℕ) : ℚ := pix2 0 t r c

/-- External image-processing primitives used by `reg.py`:
`ndShift` is `scipy.ndimage.shift` (sub-pixel interpolated resampling),
`laplace` is `skimage.filters.laplace`, `regTranslation` is
`skimage.feature.register_translation` with `upsample_factor=10` (returning
the estimated `(shift, error)`), and `convert` is the per-pixel action of
`skimage.util.dtype.convert` from normalized float to the canvas dtype. -/
structure ImageLib where
  ndShift : Img → ℚ × ℚ → Img
  laplace : Img → Img
  regTranslation : Img → Img → (ℚ × ℚ) × ℚ
  convert : ℚ → ℕ

/-- `whiten(img)`: `skimage.filters.laplace(img)` (reg.py lines 198-206). -/
def whiten (lib : ImageLib) (img : Img) : Img := lib.laplace img

/-- `np.clip(img, 0, 1)` applied elementwise. -/
def clip01 (img : Img) : Img := img.map (List.map (fun x => max 0 (min 1 x)))

/-- `img[:h, :w]`: truncate an image to at most `h` rows and `w` columns. -/
def imgTake2 (h w : ℕ) (img : List (List α)) : List (List α) :=
  (img.take h).map (fun row => row.take w)

/-- `t[yi:yi+h, xi:xi+w]`: a rectangular sub-window (numpy slicing clips at
the array edges). -/
def slice2 (t : List (List α)) (yi xi h w : ℕ) : List (List α) :=
  ((t.drop yi).take h).map (fun row => (row.drop xi).take w)

/-- The first conditional of `crop_like` (reg.py lines 249-250): truncate
the rows when the image is taller than the target. -/
def crop_rows (img : Img) (target : List (List β)) : Img :=
  if imgHeight target < imgHeight img then img.take (imgHeight target) else img

/-- `crop_like(img, target)` (reg.py lines 248-253): truncate `img` on each
axis to `target`'s shape whenever it is larger. -/
def crop_like (img : Img) (target : List (List β)) : Img :=
  if imgWidth target < imgWidth (crop_rows img target) then
    (crop_rows img target).map (fun row => row.take (imgWidth target))
  else crop_rows img target

/-- `Metadata.grid_dimensions` (reg.py lines 57-63), as a function of the
stacked tile positions: per-axis counts of distinct coordinates
(`len(set(pos[:, d]))`); raises unless their product equals the tile count. -/
def grid_dimensions (positions : List (ℚ × ℚ)) : Except String (ℕ × ℕ) :=
  let shape := ((positions.map Prod.fst).dedup.length, (positions.map Prod.snd).dedup.length)
  if shape.1 * shape.2 ≠ positions.length then .error "Series positions do not form a grid"
  else .ok shape

/-- The pairwise edge aligner (reg.py lines 93-150).  `read t` stands for
`reader.read(series=t, c=0)`, `positions t` for `reader.metadata.positions[t]`
and `size` for `reader.metadata.size`; `max_shift` is the maximum-shift
fraction (0.05 in the source); `cache` is the mutable registration cache,
keyed by the sorted tile pair. -/
structure EdgeAligner where
  read : ℕ → Img
  positions : ℕ → ℚ × ℚ
  size : ℚ × ℚ
  max_shift : ℚ
  cache : List ((ℕ × ℕ) × ((ℚ × ℚ) × ℚ))

/-- `EdgeAligner.intersection(t1, t2)` (reg.py lines 127-135). -/
def EdgeAligner.intersection (a : EdgeAligner) (t1 t2 : ℕ) :
    Except String ((ℚ × ℚ) × (ℚ × ℚ) × (ℤ × ℤ)) :=
  let p1 := a.positions t1
  let p2 := a.positions t2
  let q1 := (p1.1 + a.size.1, p1.2 + a.size.2)
  let q2 := (p2.1 + a.size.1, p2.2 + a.size.2)
  let position := (max p1.1 p2.1, max p1.2 p2.2)
  let shape : ℤ × ℤ := (⌈min q1.1 q2.1 - position.1⌉, ⌈min q1.2 q2.2 - position.2⌉)
  if shape.1 ≤ 0 ∨ shape.2 ≤ 0 then .error "Tiles do not intersect"
  else .ok ((p1.1 - position.1, p1.2 - position.2),
            (p2.1 - position.1, p2.2 - position.2), shape)

/-- `EdgeAligner.crop(tile, offset, shape)` (reg.py lines 137-144): read the
tile plane, sub-pixel–shift it by `offset`, truncate to `shape`, clamp to
the unit interval. -/
def EdgeAligner.crop (a : EdgeAligner) (lib : ImageLib) (tile : ℕ) (offset : ℚ × ℚ)
    (shape : ℤ × ℤ) : Img :=
  clip01 (imgTake2 shape.1.toNat shape.2.toNat (lib.ndShift (a.read tile) offset))

/-- `EdgeAligner.overlap(t1, t2)` (reg.py lines 146-150). -/
def EdgeAligner.overlap (a : EdgeAligner) (lib : ImageLib) (t1 t2 : ℕ) :
    Except String (Img × Img) :=
  match a.intersection t1 t2 with
  | .error e => .error e
  | .ok (offset1, offset2, shape) =>
      .ok (a.crop lib t1 offset1 shape, a.crop lib t2 offset2 shape)

/-- Theorem C4 helper: the analytic per-axis overlap data for a tile pair. -/
def overlapCorner (a : EdgeAligner) (t1 t2 : ℕ) : ℚ × ℚ :=
  (max (a.positions t1).1 (a.positions t2).1, max (a.positions t1).2 (a.positions t2).2)

/-- The rounded-up per-axis overlap extent: the element-wise minimum of the
two bottom-right tile corners minus the overlap's top-left corner. -/
def overlapExtent (a : EdgeAligner) (t1 t2 : ℕ) : ℤ × ℤ :=
  (⌈min ((a.positions t1).1 + a.size.1) ((a.positions t2).1 + a.size.1) - (overlapCorner a t1 t2).1⌉,
   ⌈min ((a.positions t1).2 + a.size.2) ((a.positions t2).2 + a.size.2) - (overlapCorner a t1 t2).2⌉)

/-- Concrete image library used to exercise the registration code on small
inputs: identity resampling and whitening, and a phase-correlation stub that
reports a shift of one pixel in `y` with zero error. -/
def libEx : ImageLib :=
  { ndShift := fun i _ => i
    laplace := fun i => i
    regTranslation := fun _ _ => ((1, 0), 0)
    convert := fun _ => 0 }

/-- A concrete aligner: two 100×100 tiles at `(0,0)` and `(90,0)`
(10-pixel overlap), empty cache. -/
def alignerEx : EdgeAligner :=
  { read := fun _ => [[1]]
    positions := fun t => if t = 0 then (0, 0) else (90, 0)
    size := (100, 100)
    max_shift := 1/20
    cache := [] }

/-- Decidable equality for `Except` results, so concrete registration and
intersection outcomes can be checked by evaluation. -/
instance {ε α : Type} [DecidableEq ε] [DecidableEq α] : DecidableEq (Except ε α) := fun x y =>
  match x, y with
  | .error e, .error f =>
      if h : e = f then .isTrue (by subst h; rfl)
      else .isFalse (by intro hc; injection hc; contradiction)
  | .ok a, .ok b =>
      if h : a = b then .isTrue (by subst h; rfl)
      else .isFalse (by intro hc; injection hc; contradiction)
  | .error _, .ok _ => .isFalse (by intro hc; injection hc)
  | .ok _, .error _ => .isFalse (by intro hc; injection hc)

/-- The registration cache key: `tuple(sorted((t1, t2)))`. -/
def sortedKey (t1 t2 : ℕ) : ℕ × ℕ := if t1 ≤ t2 then (t1, t2) else (t2, t1)

/-- Lookup in the registration cache (`self._cache[key]`). -/
def cacheLookup (key : ℕ × ℕ) : List ((ℕ × ℕ) × ((ℚ × ℚ) × ℚ)) → Option ((ℚ × ℚ) × ℚ)
  | [] => none
  | (k, v) :: rest => if key = k then some v else cacheLookup key rest

/-- The outlier clamp (reg.py lines 118-120): if any axis of `|shift|`
exceeds `max_shift * size`, force the shift to zero and the error to the
sentinel 1. -/
def clampShift (ms : ℚ) (size sh : ℚ × ℚ) (err : ℚ) : (ℚ × ℚ) × ℚ :=
  if ms * size.1 < |sh.1| ∨ ms * size.2 < |sh.2| then ((0, 0), 1) else (sh, err)

/-- The order adjustment before returning (reg.py lines 123-124): negate
the shift when the queried order is reversed relative to the sorted cache
key (`t1 > t2`). -/
def negIfSwapped (t1 t2 : ℕ) (sh : ℚ × ℚ) : ℚ × ℚ :=
  if t2 < t1 then (-sh.1, -sh.2) else sh

/-- `EdgeAligner.register(t1, t2)` (reg.py lines 100-125).  Returns the
`(shift, error)` result, the aligner with its possibly-extended cache, and
the number of `reader.read` calls the invocation performed (two on a cache
miss — one per overlap crop — and zero on a hit). -/
def EdgeAligner.register (a : EdgeAligner) (lib : ImageLib) (t1 t2 : ℕ) :
    Except String (((ℚ × ℚ) × ℚ) × EdgeAligner × ℕ) :=
  match cacheLookup (sortedKey t1 t2) a.cache with
  | some (shift, error) => .ok ((negIfSwapped t1 t2 shift, error), a, 0)
  | none =>
    match a.overlap lib t1 t2 with
    | .error e => .error e
    | .ok (img1, img2) =>
      match clampShift a.max_shift a.size
          (lib.regTranslation (whiten lib img1) (whiten lib img2)).1
          (lib.regTranslation (whiten lib img1) (whiten lib img2)).2 with
      | (shift, error) =>
        .ok ((negIfSwapped t1 t2 shift, error),
             { a with cache := (sortedKey t1 t2, (shift, error)) :: a.cache }, 2)

/-- A 2×3 rectangular grid of tile positions at regular 90-pixel spacing. -/
def grid23 : List (ℚ × ℚ) := [(0, 0), (0, 90), (0, 180), (90, 0), (90, 90), (90, 180)]

/-- `alignerEx` after a single cache miss on the pair `(0, 1)`. -/
def alignerEx1 : EdgeAligner := { alignerEx with cache := [((0, 1), ((1, 0), 0))] }

/-- Image library whose phase-correlation stub reports a 7-pixel shift,
beyond `alignerEx`'s 5-pixel outlier threshold. -/
def libClamp : ImageLib :=
  { ndShift := fun i _ => i
    laplace := fun i => i
    regTranslation := fun _ _ => ((7, 0), 1/3)
    convert := fun _ => 0 }

/-- Truncation toward zero, as performed by numpy's `modf` integer part and
by `astype(int)` on floats. -/
def ratTrunc (q : ℚ) : ℤ := if 0 ≤ q then ⌊q⌋ else ⌈q⌉

/-- `np.modf(q)`: the pair (fractional part, integer part), both carrying
the sign of `q`; the integer part truncates toward zero. -/
def modf (q : ℚ) : ℚ × ℤ := (q - ratTrunc q, ratTrunc q)

/-- The `y`-axis edge clip of `paste` (reg.py lines 219-221): a negative
integer offset clips the leading rows of the source and resets the offset
to zero. -/
def pasteClipY (img : Img) (yi : ℤ) : Img × ℕ :=
  if yi < 0 then (img.drop (-yi).toNat, 0) else (img, yi.toNat)

/-- The `x`-axis edge clip of `paste` (reg.py lines 222-224). -/
def pasteClipX (img : Img) (xi : ℤ) : Img × ℕ :=
  if xi < 0 then (img.map (fun row => row.drop (-xi).toNat), 0) else (img, xi.toNat)

/-- The position-splitting prologue of `paste` (reg.py lines 216-224):
`np.modf` on both axes, then per-axis edge clipping.  Returns the clipped
source, the nonnegative integer offsets, and the fractional remainders. -/
def pasteSplit (img : Img) (pos : ℚ × ℚ) : Img × ℕ × ℕ × (ℚ × ℚ) :=
  ((pasteClipX (pasteClipY img (modf pos.1).2).1 (modf pos.2).2).1,
   (pasteClipY img (modf pos.1).2).2,
   (pasteClipX (pasteClipY img (modf pos.1).2).1 (modf pos.2).2).2,
   ((modf pos.1).1, (modf pos.2).1))

/-- `np.maximum(target_slice, img)`: element-wise maximum of two canvases. -/
def maxBlend (s nimg : NatImg) : NatImg := List.zipWith (List.zipWith max) s nimg

/-- Writing a block `s` back into canvas `t` at offset `(yi, xi)` — the
functional rendering of the in-place slice assignment
`target[yi:yi+h, xi:xi+w] = s`. -/
def setRegion (t : NatImg) (yi xi : ℕ) (s : NatImg) : NatImg :=
  t.take yi ++
    List.zipWith (fun row srow => row.take xi ++ srow ++ row.drop (xi + srow.length))
      ((t.drop yi).take s.length) s ++
    t.drop (yi + s.length)

/-- `v += 6000` on an unsigned canvas pixel: numpy in-place addition wraps
modulo the dtype's modulus `m`. -/
def addWrap (m v : ℕ) : ℕ := (v + 6000) % m

/-- Map with the element index, starting from `i`. -/
def mapWithIdxFrom (f : ℕ → α → β) : ℕ → List α → List β
  | _, [] => []
  | i, a :: as => f i a :: mapWithIdxFrom f (i + 1) as

/-- Map with the element index. -/
def mapWithIdx (f : ℕ → α → β) (l : List α) : List β := mapWithIdxFrom f 0 l

/-- `target_slice[0, :] += 6000`: brighten the first row (wraparound). -/
def debugTop (m : ℕ) (s : NatImg) : NatImg :=
  mapWithIdx (fun r row => if r = 0 then row.map (addWrap m) else row) s

/-- `target_slice[-1, :] += 6000`: brighten the last row (wraparound). -/
def debugBottom (m : ℕ) (s : NatImg) : NatImg :=
  mapWithIdx (fun r row => if r = s.length - 1 then row.map (addWrap m) else row) s

/-- `target_slice[1:-1, 0] += 6000`: brighten the first column of the
interior rows (wraparound). -/
def debugLeft (m : ℕ) (s : NatImg) : NatImg :=
  mapWithIdx (fun r row =>
    if 1 ≤ r ∧ r < s.length - 1 then
      mapWithIdx (fun c v => if c = 0 then addWrap m v else v) row
    else row) s

/-- `target_slice[1:-1, -1] += 6000`: brighten the last column of the
interior rows (wraparound). -/
def debugRight (m : ℕ) (s : NatImg) : NatImg :=
  mapWithIdx (fun r row =>
    if 1 ≤ r ∧ r < s.length - 1 then
      mapWithIdx (fun c v => if c = row.length - 1 then addWrap m v else v) row
    else row) s

/-- The debug border overlay of `paste` (reg.py lines 235-245): brighten
the border of the pasted slice by 6000 with wraparound modulo the dtype
modulus `m`.  The trailing `np.clip(target_slice[:, :], 0,
np.iinfo(target.dtype).max)` call in the source passes no `out` argument,
so its result is a discarded copy and the slice is left as brightened. -/
def debugBorder (m : ℕ) (s : NatImg) : NatImg :=
  debugRight m (debugLeft m (debugBottom m (debugTop m s)))

/-- The compositing pipeline of `paste` up to dtype conversion (reg.py
lines 216-233): split and clip the position, slice the target region at the
integer offset, truncate the source to that slice via `crop_like`, apply
the fractional sub-pixel shift, clamp to `[0, 1]`, and convert to the
canvas dtype.  Returns the converted source, the integer offsets, and the
target slice. -/
def pasteProcessed (lib : ImageLib) (target : NatImg) (img : Img) (pos : ℚ × ℚ) :
    NatImg × ℕ × ℕ × NatImg :=
  match pasteSplit img pos with
  | (img1, yi, xi, pos_f) =>
    ((clip01 (lib.ndShift (crop_like img1 (slice2 target yi xi (imgHeight img1) (imgWidth img1))) pos_f)).map
        (List.map lib.convert),
     yi, xi, slice2 target yi xi (imgHeight img1) (imgWidth img1))

/-- `paste(target, img, pos, debug)` (reg.py lines 209-245): composite the
processed source into the canvas with maximum-intensity blending
(`target_slice[:, :] = np.maximum(target_slice, img)`), then optionally
overlay the debug border on the written slice.  `imax` is
`np.iinfo(target.dtype).max`. -/
def paste (lib : ImageLib) (imax : ℕ) (target : NatImg) (img : Img) (pos : ℚ × ℚ)
    (debug : Bool) : NatImg :=
  match pasteProcessed lib target img pos with
  | (nimg, yi, xi, ts) =>
    setRegion target yi xi
      (if debug then debugBorder (imax + 1) (maxBlend ts nimg) else maxBlend ts nimg)

/-- Image library for exercising `paste`: identity resampling and a
conversion that maps every intensity to canvas value 0. -/
def libC8 : ImageLib :=
  { ndShift := fun i _ => i
    laplace := fun i => i
    regTranslation := fun _ _ => ((0, 0), 0)
    convert := fun _ => 0 }

/-- Minimum of a list of rationals (`positions.min(axis=0)` per axis). -/
def listMinQ : List ℚ → ℚ
  | [] => 0
  | [x] => x
  | x :: y :: rest => min x (listMinQ (y :: rest))

/-- `metadata.positions.min(axis=0)`: the element-wise minimum position. -/
def originOf (ps : List (ℚ × ℚ)) : ℚ × ℚ :=
  (listMinQ (ps.map Prod.fst), listMinQ (ps.map Prod.snd))

/-- The layer aligner (reg.py lines 180-195): an image source for the new
layer, the already-composited reference mosaic, and the integer tile
positions computed at construction. -/
structure LayerAligner where
  read : ℕ → Img
  reference_image : Img
  positions : List (ℤ × ℤ)

/-- `LayerAligner.__init__` (reg.py lines 182-186): positions are
`(reader.metadata.positions - reader.metadata.origin).astype(int)` —
the nonnegative offsets from the mosaic origin, truncated toward zero. -/
def mkLayerAligner (read : ℕ → Img) (reference_image : Img)
    (metaPositions : List (ℚ × ℚ)) : LayerAligner :=
  { read := read
    reference_image := reference_image
    positions := metaPositions.map (fun p =>
      (ratTrunc (p.1 - (originOf metaPositions).1),
       ratTrunc (p.2 - (originOf metaPositions).2))) }

/-- The whitened reference-mosaic window for tile `t`
(`whiten(self.reference_image[sy:sy+h, sx:sx+w])`, reg.py line 192).
The stored positions are nonnegative by construction, so `toNat` is the
identity on them. -/
def layerRefTile (la : LayerAligner) (lib : ImageLib) (t : ℕ) : Img :=
  whiten lib (slice2 la.reference_image (la.positions.getD t (0, 0)).1.toNat
    (la.positions.getD t (0, 0)).2.toNat
    (imgHeight (la.read t)) (imgWidth (la.read t)))

/-- `LayerAligner.register(t)` (reg.py lines 188-195): whiten the reference
window and the tile image (the latter first truncated to the window's shape
via `crop_like`), phase-correlate, and return the absolute mosaic position
`positions[t] + shift` together with the correlation error. -/
def LayerAligner.register (la : LayerAligner) (lib : ImageLib) (t : ℕ) : (ℚ × ℚ) × ℚ :=
  ((((la.positions.getD t (0, 0)).1 : ℚ) +
      (lib.regTranslation (layerRefTile la lib t)
        (whiten lib (crop_like (la.read t) (layerRefTile la lib t)))).1.1,
    ((la.positions.getD t (0, 0)).2 : ℚ) +
      (lib.regTranslation (layerRefTile la lib t)
        (whiten lib (crop_like (la.read t) (layerRefTile la lib t)))).1.2),
   (lib.regTranslation (layerRefTile la lib t)
     (whiten lib (crop_like (la.read t) (layerRefTile la lib t)))).2)

/-- Theorem C9 comparison definition, modelled from the spec's words:
positions "rounded to integer pixels" — rounding to the nearest integer
instead of the code's truncation. -/
def specRoundedPositions (metaPositions : List (ℚ × ℚ)) : List (ℤ × ℤ) :=
  metaPositions.map (fun p =>
    (round (p.1 - (originOf metaPositions).1),
     round (p.2 - (originOf metaPositions).2)))

/-- `intersection` rewritten with its branch condition and result expressed
through `overlapCorner` / `overlapExtent` (definitional equality). -/
theorem intersection_eq (a : EdgeAligner) (t1 t2 : ℕ) :
    a.intersection t1 t2 =
      if (overlapExtent a t1 t2).1 ≤ 0 ∨ (overlapExtent a t1 t2).2 ≤ 0 then
        .error "Tiles do not intersect"
      else
        .ok (((a.positions t1).1 - (overlapCorner a t1 t2).1,
              (a.positions t1).2 - (overlapCorner a t1 t2).2),
             ((a.positions t2).1 - (overlapCorner a t1 t2).1,
              (a.positions t2).2 - (overlapCorner a t1 t2).2),
             overlapExtent a t1 t2) := rfl

/-- C4: `EdgeAligner.intersection` returns the axis-aligned overlap rectangle
of the two tiles: on success each offset is the tile's position minus the
element-wise maximum of the two positions (the overlap's top-left corner),
the shape is the rounded-up extent to the element-wise minimum of the two
bottom-right corners, and that shape is strictly positive on both axes; it
fails exactly when the rounded-up extent is not strictly positive on both
axes. -/
theorem intersection_spec (a : EdgeAligner) (t1 t2 : ℕ) :
    (∀ o1 o2 sh, a.intersection t1 t2 = .ok (o1, o2, sh) →
      o1 = ((a.positions t1).1 - (overlapCorner a t1 t2).1,
            (a.positions t1).2 - (overlapCorner a t1 t2).2) ∧
      o2 = ((a.positions t2).1 - (overlapCorner a t1 t2).1,
            (a.positions t2).2 - (overlapCorner a t1 t2).2) ∧
      sh = overlapExtent a t1 t2 ∧ 0 < sh.1 ∧ 0 < sh.2) ∧
    (a.intersection t1 t2 = .error "Tiles do not intersect" ↔
      ((overlapExtent a t1 t2).1 ≤ 0 ∨ (overlapExtent a t1 t2).2 ≤ 0)) := by
  rw [intersection_eq]
  constructor
  · intro o1 o2 sh h
    split at h
    · exact absurd h (by simp)
    · rename_i hcond
      push_neg at hcond
      rw [Except.ok.injEq] at h
      simp only [Prod.mk.injEq] at h
      obtain ⟨h1, h2, h3⟩ := h
      refine ⟨h1.symm, h2.symm, h3.symm, ?_, ?_⟩
      · rw [← h3]; exact hcond.1
      · rw [← h3]; exact hcond.2
  · constructor
    · intro h
      split at h
      · assumption
      · exact absurd h (by simp)
    · intro h
      split
      · rfl
      · exact absurd h (by assumption)

/-- Evaluation helper: the overlap corner of `alignerEx`'s tiles 0 and 1. -/
theorem alignerEx_corner01 : overlapCorner alignerEx 0 1 = (90, 0) := by
  unfold overlapCorner alignerEx
  norm_num

/-- Evaluation helper: the rounded-up overlap extent of `alignerEx`'s
tiles 0 and 1. -/
theorem alignerEx_extent01 : overlapExtent alignerEx 0 1 = (10, 100) := by
  unfold overlapExtent overlapCorner alignerEx
  norm_num

/-- Evaluation helper: the intersection of `alignerEx`'s tiles 0 and 1. -/
theorem alignerEx_inter01 :
    alignerEx.intersection 0 1 = .ok ((-90, 0), (0, 0), (10, 100)) := by
  rw [intersection_eq, alignerEx_extent01]
  norm_num [alignerEx_corner01]
  unfold alignerEx
  norm_num

/-- C4 witness: the characterization applied to the concrete aligner
`alignerEx` on tiles 0 and 1 (overlap rectangle `10 × 100`). -/
theorem intersection_spec_witness :
    ((-90 : ℚ), (0 : ℚ)) = ((alignerEx.positions 0).1 - (overlapCorner alignerEx 0 1).1,
      (alignerEx.positions 0).2 - (overlapCorner alignerEx 0 1).2) ∧
    ((0 : ℚ), (0 : ℚ)) = ((alignerEx.positions 1).1 - (overlapCorner alignerEx 0 1).1,
      (alignerEx.positions 1).2 - (overlapCorner alignerEx 0 1).2) ∧
    ((10 : ℤ), (100 : ℤ)) = overlapExtent alignerEx 0 1 ∧
    (0 : ℤ) < ((10 : ℤ), (100 : ℤ)).1 ∧ (0 : ℤ) < ((10 : ℤ), (100 : ℤ)).2 :=
  (intersection_spec alignerEx 0 1).1 (-90, 0) (0, 0) (10, 100) alignerEx_inter01

/-- C5 (amended): for intersecting tiles both returned crop offsets are
element-wise less than or equal to zero (each is the tile position minus the
element-wise maximum of the two positions), and the returned shape is
strictly positive on both axes. -/
theorem intersection_offsets_nonpos (a : EdgeAligner) (t1 t2 : ℕ) (o1 o2 : ℚ × ℚ)
    (sh : ℤ × ℤ) (h : a.intersection t1 t2 = .ok (o1, o2, sh)) :
    o1.1 ≤ 0 ∧ o1.2 ≤ 0 ∧ o2.1 ≤ 0 ∧ o2.2 ≤ 0 ∧ 0 < sh.1 ∧ 0 < sh.2 := by
  obtain ⟨h1, h2, _, h4, h5⟩ := (intersection_spec a t1 t2).1 o1 o2 sh h
  subst h1; subst h2
  unfold overlapCorner
  refine ⟨?_, ?_, ?_, ?_, h4, h5⟩ <;> simp [sub_nonpos, le_max_left, le_max_right]

/-- C5 counterexample: for `alignerEx` tiles 0 and 1 the intersection
succeeds, yet the first tile's crop offset is `(-90, 0)`, whose `y`
component is negative — refuting the claim that both offsets are
element-wise nonnegative. -/
theorem intersection_offsets_cex :
    alignerEx.intersection 0 1 = .ok ((-90, 0), (0, 0), (10, 100)) ∧
    ¬ ((0 : ℚ) ≤ -90) := by
  constructor
  · exact alignerEx_inter01
  · norm_num

/-- C5 witness: the amended invariant evaluated on `alignerEx` tiles 0, 1. -/
theorem intersection_offsets_nonpos_witness :
    ((-90 : ℚ), (0 : ℚ)).1 ≤ 0 ∧ ((-90 : ℚ), (0 : ℚ)).2 ≤ 0 ∧
    ((0 : ℚ), (0 : ℚ)).1 ≤ 0 ∧ ((0 : ℚ), (0 : ℚ)).2 ≤ 0 ∧
    (0 : ℤ) < ((10 : ℤ), (100 : ℤ)).1 ∧ (0 : ℤ) < ((10 : ℤ), (100 : ℤ)).2 :=
  intersection_offsets_nonpos alignerEx 0 1 (-90, 0) (0, 0) (10, 100) alignerEx_inter01

/-- The sorted cache key does not depend on the query order. -/
theorem sortedKey_comm (t1 t2 : ℕ) : sortedKey t2 t1 = sortedKey t1 t2 := by
  unfold sortedKey
  split_ifs <;> simp [Prod.ext_iff] <;> omega

/-- C1: register is direction-symmetric.  For two distinct tiles, calling
`register(t1, t2)` and then `register(t2, t1)` on the resulting aligner
yields element-wise negated shifts and the same error value. -/
theorem edge_register_symmetry (lib : ImageLib) (a : EdgeAligner) (t1 t2 : ℕ)
    (hne : t1 ≠ t2) (r1 r2 : (ℚ × ℚ) × ℚ) (a1 a2 : EdgeAligner) (n1 n2 : ℕ)
    (h1 : a.register lib t1 t2 = .ok (r1, a1, n1))
    (h2 : a1.register lib t2 t1 = .ok (r2, a2, n2)) :
    r2.1.1 = -r1.1.1 ∧ r2.1.2 = -r1.1.2 ∧ r2.2 = r1.2 := by
  have hfinish : ∀ s : ℚ × ℚ, ∀ e : ℚ,
      r1 = (negIfSwapped t1 t2 s, e) → r2 = (negIfSwapped t2 t1 s, e) →
      r2.1.1 = -r1.1.1 ∧ r2.1.2 = -r1.1.2 ∧ r2.2 = r1.2 := by
    intro s e hr1 hr2
    subst hr1; subst hr2
    unfold negIfSwapped
    rcases Nat.lt_or_ge t1 t2 with hlt | hge
    · rw [if_pos (show t1 < t2 by omega), if_neg (show ¬ t2 < t1 by omega)]
      exact ⟨rfl, rfl, rfl⟩
    · rw [if_neg (show ¬ t1 < t2 by omega), if_pos (show t2 < t1 by omega)]
      simp
  rcases hc : cacheLookup (sortedKey t1 t2) a.cache with _ | ⟨s, e⟩
  · -- first call misses: the estimate is cached under the sorted key
    rcases hov : a.overlap lib t1 t2 with e | ⟨i1, i2⟩ <;>
      simp only [EdgeAligner.register, hc, hov] at h1
    · cases h1
    · simp only [Except.ok.injEq, Prod.mk.injEq] at h1
      obtain ⟨hr1, ha1, -⟩ := h1
      have hlook : cacheLookup (sortedKey t2 t1) a1.cache =
          some (clampShift a.max_shift a.size
            (lib.regTranslation (whiten lib i1) (whiten lib i2)).1
            (lib.regTranslation (whiten lib i1) (whiten lib i2)).2) := by
        rw [sortedKey_comm, ← ha1]
        simp [cacheLookup]
      simp only [EdgeAligner.register, hlook, Except.ok.injEq, Prod.mk.injEq] at h2
      obtain ⟨hr2, -, -⟩ := h2
      exact hfinish _ _ hr1.symm hr2.symm
  · -- first call hits: the second call hits the same entry
    simp only [EdgeAligner.register, hc, Except.ok.injEq, Prod.mk.injEq] at h1
    obtain ⟨hr1, ha1, -⟩ := h1
    have hlook : cacheLookup (sortedKey t2 t1) a1.cache = some (s, e) := by
      rw [sortedKey_comm, ← ha1]
      exact hc
    simp only [EdgeAligner.register, hlook, Except.ok.injEq, Prod.mk.injEq] at h2
    obtain ⟨hr2, -, -⟩ := h2
    exact hfinish _ _ hr1.symm hr2.symm

/-- Evaluation helper: the overlap corner of `alignerEx`'s tiles queried in
reversed order. -/
theorem alignerEx_corner10 : overlapCorner alignerEx 1 0 = (90, 0) := by
  unfold overlapCorner alignerEx
  norm_num

/-- Evaluation helper: the rounded-up overlap extent in reversed order. -/
theorem alignerEx_extent10 : overlapExtent alignerEx 1 0 = (10, 100) := by
  unfold overlapExtent overlapCorner alignerEx
  norm_num

/-- Evaluation helper: the intersection of `alignerEx`'s tiles in reversed
order: the offsets swap roles. -/
theorem alignerEx_inter10 :
    alignerEx.intersection 1 0 = .ok ((0, 0), (-90, 0), (10, 100)) := by
  rw [intersection_eq, alignerEx_extent10]
  norm_num [alignerEx_corner10]
  unfold alignerEx
  norm_num

/-- Evaluation helper: the overlap crops of `alignerEx`'s tiles 0 and 1. -/
theorem alignerEx_overlap01 (lib : ImageLib) :
    alignerEx.overlap lib 0 1 =
      .ok (alignerEx.crop lib 0 (-90, 0) (10, 100), alignerEx.crop lib 1 (0, 0) (10, 100)) := by
  unfold EdgeAligner.overlap
  rw [alignerEx_inter01]

/-- Evaluation helper: the overlap crops in reversed order. -/
theorem alignerEx_overlap10 (lib : ImageLib) :
    alignerEx.overlap lib 1 0 =
      .ok (alignerEx.crop lib 1 (0, 0) (10, 100), alignerEx.crop lib 0 (-90, 0) (10, 100)) := by
  unfold EdgeAligner.overlap
  rw [alignerEx_inter10]

/-- Evaluation helper: a cache-miss registration of `(0, 1)` on `libEx`
returns the raw estimate and performs two reads. -/
theorem alignerEx_register01 :
    alignerEx.register libEx 0 1 = .ok (((1, 0), 0), alignerEx1, 2) := by
  have hc : cacheLookup (sortedKey 0 1) alignerEx.cache = none := rfl
  simp only [EdgeAligner.register, hc, alignerEx_overlap01]
  norm_num [libEx, clampShift, negIfSwapped, whiten, alignerEx, alignerEx1, sortedKey]

/-- Evaluation helper: a cache-miss registration of the reversed pair
`(1, 0)` negates the estimate it just computed for that very order. -/
theorem alignerEx_register10 :
    alignerEx.register libEx 1 0 = .ok (((-1, 0), 0), alignerEx1, 2) := by
  have hc : cacheLookup (sortedKey 1 0) alignerEx.cache = none := rfl
  simp only [EdgeAligner.register, hc, alignerEx_overlap10]
  norm_num [libEx, clampShift, negIfSwapped, whiten, alignerEx, alignerEx1, sortedKey]

/-- Evaluation helper: a cache-hit registration of `(1, 0)` after the pair
was registered as `(0, 1)`: the cached shift is negated, no reads occur. -/
theorem alignerEx1_register10 :
    alignerEx1.register libEx 1 0 = .ok (((-1, 0), 0), alignerEx1, 0) := by
  have hl : cacheLookup (sortedKey 1 0) alignerEx1.cache = some ((1, 0), 0) := rfl
  simp only [EdgeAligner.register, hl]
  norm_num [negIfSwapped]

/-- C1 witness: the symmetry theorem applied to the concrete run
`register(0,1)` then `register(1,0)` on `alignerEx` with `libEx`:
shifts `(1, 0)` and `(-1, 0)`, both with error 0. -/
theorem edge_register_symmetry_witness :
    (-1 : ℚ) = -(1 : ℚ) ∧ (0 : ℚ) = -(0 : ℚ) ∧ (0 : ℚ) = (0 : ℚ) :=
  edge_register_symmetry libEx alignerEx 0 1 (by decide) ((1, 0), 0) ((-1, 0), 0)
    alignerEx1 alignerEx1 2 0 alignerEx_register01 alignerEx1_register10

/-- C3: registration is cache-idempotent.  If `register(t1, t2)` returns a
result, calling it again on the returned aligner yields the identical
result, performs zero image reads, and leaves the cache unchanged; moreover
when the first call already hit the cache, it too left the aligner
unchanged (an entry is created only on a cache miss). -/
theorem edge_register_idempotent (lib : ImageLib) (a : EdgeAligner) (t1 t2 : ℕ)
    (r : (ℚ × ℚ) × ℚ) (a' : EdgeAligner) (n : ℕ)
    (h : a.register lib t1 t2 = .ok (r, a', n)) :
    a'.register lib t1 t2 = .ok (r, a', 0) ∧
    (cacheLookup (sortedKey t1 t2) a.cache ≠ none → a' = a) := by
  rcases hc : cacheLookup (sortedKey t1 t2) a.cache with _ | ⟨s, e⟩
  · -- cache miss: the first call stores the freshly clamped estimate
    rcases hov : a.overlap lib t1 t2 with e | ⟨i1, i2⟩ <;>
      simp only [EdgeAligner.register, hc, hov] at h
    · cases h
    · simp only [Except.ok.injEq, Prod.mk.injEq] at h
      obtain ⟨hr, ha, -⟩ := h
      constructor
      · have hl : cacheLookup (sortedKey t1 t2) a'.cache =
            some ((clampShift a.max_shift a.size
                (lib.regTranslation (whiten lib i1) (whiten lib i2)).1
                (lib.regTranslation (whiten lib i1) (whiten lib i2)).2).1,
              (clampShift a.max_shift a.size
                (lib.regTranslation (whiten lib i1) (whiten lib i2)).1
                (lib.regTranslation (whiten lib i1) (whiten lib i2)).2).2) := by
          rw [← ha]
          simp [cacheLookup]
        simp only [EdgeAligner.register, hl]
        rw [← hr]
      · intro hcon
        exact absurd rfl hcon
  · -- cache hit: the aligner is returned unchanged
    simp only [EdgeAligner.register, hc, Except.ok.injEq, Prod.mk.injEq] at h
    obtain ⟨hr, ha, -⟩ := h
    subst ha
    constructor
    · simp only [EdgeAligner.register, hc]
      rw [← hr]
    · intro _
      rfl

/-- C3 witness: the idempotence theorem applied to the concrete first call
`register(0,1)` on `alignerEx` with `libEx`. -/
theorem edge_register_idempotent_witness :
    alignerEx1.register libEx 0 1 = .ok (((1, 0), 0), alignerEx1, 0) ∧
    (cacheLookup (sortedKey 0 1) alignerEx.cache ≠ none → alignerEx1 = alignerEx) :=
  edge_register_idempotent libEx alignerEx 0 1 ((1, 0), 0) alignerEx1 2 alignerEx_register01

/-- C2 (amended): on a cache miss, if the phase-correlation estimate has
absolute shift exceeding `max_shift × size` on any axis, `register` returns
shift exactly `(0, 0)` and error 1 (and caches that); otherwise it returns
the estimate with its error unchanged, element-wise negated when the
queried order is reversed (`t1 > t2`) and unmodified when `t1 < t2`. -/
theorem edge_register_clamp (lib : ImageLib) (a : EdgeAligner) (t1 t2 : ℕ)
    (hmiss : cacheLookup (sortedKey t1 t2) a.cache = none)
    (i1 i2 : Img) (hov : a.overlap lib t1 t2 = .ok (i1, i2))
    (sh : ℚ × ℚ) (err : ℚ)
    (hest : lib.regTranslation (whiten lib i1) (whiten lib i2) = (sh, err)) :
    ((a.max_shift * a.size.1 < |sh.1| ∨ a.max_shift * a.size.2 < |sh.2|) →
      a.register lib t1 t2 =
        .ok (((0, 0), 1),
          { a with cache := (sortedKey t1 t2, ((0, 0), 1)) :: a.cache }, 2)) ∧
    (¬ (a.max_shift * a.size.1 < |sh.1| ∨ a.max_shift * a.size.2 < |sh.2|) →
      a.register lib t1 t2 =
        .ok ((negIfSwapped t1 t2 sh, err),
          { a with cache := (sortedKey t1 t2, (sh, err)) :: a.cache }, 2)) := by
  constructor
  · intro hcl
    simp only [EdgeAligner.register, hmiss, hov, hest, clampShift]
    rw [if_pos hcl]
    unfold negIfSwapped
    split <;> norm_num
  · intro hcl
    simp only [EdgeAligner.register, hmiss, hov, hest, clampShift]
    rw [if_neg hcl]

/-- C2 counterexample: on the cache-miss call `register(1, 0)` with `libEx`
the phase-correlation estimate for the queried order is `(1, 0)` (within
the 5-pixel outlier threshold), yet the returned shift is its negation
`(-1, 0)` — refuting the claim that the unmodified estimate is returned. -/
theorem register_clamp_cex :
    alignerEx.register libEx 1 0 = .ok (((-1, 0), 0), alignerEx1, 2) ∧
    libEx.regTranslation (whiten libEx (alignerEx.crop libEx 1 (0, 0) (10, 100)))
        (whiten libEx (alignerEx.crop libEx 0 (-90, 0) (10, 100))) = ((1, 0), 0) ∧
    ¬ (alignerEx.max_shift * alignerEx.size.1 < |((1 : ℚ), (0 : ℚ)).1| ∨
       alignerEx.max_shift * alignerEx.size.2 < |((1 : ℚ), (0 : ℚ)).2|) ∧
    ((-1 : ℚ), (0 : ℚ)) ≠ ((1 : ℚ), (0 : ℚ)) := by
  refine ⟨alignerEx_register10, rfl, ?_, ?_⟩
  · norm_num [alignerEx]
  · norm_num

/-- C2 witness: the amended clamp theorem applied to `libClamp`, whose
7-pixel estimate exceeds the threshold: the result is forced to shift 0,
error 1. -/
theorem edge_register_clamp_witness :
    alignerEx.register libClamp 0 1 =
      .ok (((0, 0), 1),
        { alignerEx with cache := (sortedKey 0 1, ((0, 0), 1)) :: alignerEx.cache }, 2) :=
  (edge_register_clamp libClamp alignerEx 0 1 rfl _ _ (alignerEx_overlap01 libClamp)
    (7, 0) (1/3) rfl).1 (by norm_num [alignerEx])

/-- C7: `grid_dimensions` fails exactly when the product of the per-axis
distinct-position counts differs from the tile count, and on the concrete
2×3 grid `grid23` it succeeds and returns `(2, 3)`. -/
theorem grid_dimensions_spec :
    (∀ ps : List (ℚ × ℚ),
      grid_dimensions ps = .error "Series positions do not form a grid" ↔
        (ps.map Prod.fst).dedup.length * (ps.map Prod.snd).dedup.length ≠ ps.length) ∧
    grid_dimensions grid23 = .ok (2, 3) := by
  constructor
  · intro ps
    have heq : grid_dimensions ps =
        if (ps.map Prod.fst).dedup.length * (ps.map Prod.snd).dedup.length ≠ ps.length then
          .error "Series positions do not form a grid"
        else .ok ((ps.map Prod.fst).dedup.length, (ps.map Prod.snd).dedup.length) := rfl
    rw [heq]
    constructor
    · intro h
      split at h
      · assumption
      · exact absurd h (by simp)
    · intro h
      split
      · rfl
      · exact absurd h (by assumption)
  · decide

/-- Truncation facts for a negative non-integer coordinate: the integer
part is the ceiling, its negation is the floor of the negation, and the
fractional remainder lies strictly inside `(-1, 0)`. -/
theorem ratTrunc_neg_facts (p : ℚ) (hneg : p < 0) (hni : (ratTrunc p : ℚ) ≠ p) :
    ratTrunc p = ⌈p⌉ ∧ ratTrunc (-p) = -⌈p⌉ ∧ ⌈p⌉ ≤ 0 ∧
    (-1 : ℚ) < p - ratTrunc p ∧ p - ratTrunc p ≤ 0 ∧ p - ratTrunc p < 0 := by
  have hrt : ratTrunc p = ⌈p⌉ := by
    unfold ratTrunc
    rw [if_neg (not_le.mpr hneg)]
  have hrneg : ratTrunc (-p) = -⌈p⌉ := by
    unfold ratTrunc
    rw [if_pos (by linarith), Int.floor_neg]
  have hceil_le : ⌈p⌉ ≤ 0 := Int.ceil_le.mpr (by exact_mod_cast hneg.le)
  have hub : (⌈p⌉ : ℚ) < p + 1 := by exact_mod_cast Int.ceil_lt_add_one p
  have hlb : p ≤ (⌈p⌉ : ℚ) := Int.le_ceil p
  have hne : p ≠ (⌈p⌉ : ℚ) := by
    rw [hrt] at hni
    exact fun hcontra => hni hcontra.symm
  have hlt : p < (⌈p⌉ : ℚ) := lt_of_le_of_ne hlb hne
  refine ⟨hrt, hrneg, hceil_le, ?_, ?_, ?_⟩ <;> rw [hrt] <;> linarith

/-- The `y`-axis edge clip at a negative non-integer integer part: exactly
`trunc(-p)` leading rows are dropped and the offset is reset to 0. -/
theorem pasteClipY_neg (img : Img) (p : ℚ) (hneg : p < 0) (hni : (ratTrunc p : ℚ) ≠ p) :
    pasteClipY img (modf p).2 = (img.drop (ratTrunc (-p)).toNat, 0) := by
  obtain ⟨h1, h2, h3, -, -, -⟩ := ratTrunc_neg_facts p hneg hni
  unfold pasteClipY modf
  dsimp only
  rw [h1, h2]
  by_cases h0 : ⌈p⌉ < 0
  · rw [if_pos h0]
  · have h00 : ⌈p⌉ = 0 := le_antisymm h3 (not_lt.mp h0)
    rw [if_neg h0]
    simp [h00]

/-- The `x`-axis edge clip at a negative non-integer integer part: exactly
`trunc(-p)` leading entries of every row are dropped and the offset is
reset to 0. -/
theorem pasteClipX_neg (A : Img) (p : ℚ) (hneg : p < 0) (hni : (ratTrunc p : ℚ) ≠ p) :
    pasteClipX A (modf p).2 = (A.map (fun row => row.drop (ratTrunc (-p)).toNat), 0) := by
  obtain ⟨h1, h2, h3, -, -, -⟩ := ratTrunc_neg_facts p hneg hni
  unfold pasteClipX modf
  dsimp only
  rw [h1, h2]
  by_cases h0 : ⌈p⌉ < 0
  · rw [if_pos h0]
  · have h00 : ⌈p⌉ = 0 := le_antisymm h3 (not_lt.mp h0)
    rw [if_neg h0]
    simp [h00]

/-- C10: splitting a paste position whose component on either axis is
negative and non-integer truncates toward zero on that axis, for an
arbitrary value on the other axis: `modf` yields integer part `⌈p⌉`,
exactly `trunc(-p)` leading rows (`y` axis) or leading entries of every
row (`x` axis, applied after the row clip) are clipped, the integer offset
on that axis is reset to 0, and the fractional remainder subsequently
passed to the sub-pixel shift on that axis is `p - trunc(p)`, which lies
in `(-1, 0]` and is in fact negative — not the nonnegative remainder a
floor-based split would give. -/
theorem pasteSplit_negative_axis (img : Img) (y x : ℚ) :
    (y < 0 → (ratTrunc y : ℚ) ≠ y →
      ratTrunc y = ⌈y⌉ ∧
      pasteClipY img (modf y).2 = (img.drop (ratTrunc (-y)).toNat, 0) ∧
      (pasteSplit img (y, x)).1 =
        (pasteClipX (img.drop (ratTrunc (-y)).toNat) (modf x).2).1 ∧
      (pasteSplit img (y, x)).2.1 = 0 ∧
      (pasteSplit img (y, x)).2.2.2.1 = y - ratTrunc y ∧
      (-1 : ℚ) < y - ratTrunc y ∧ y - ratTrunc y ≤ 0 ∧ y - ratTrunc y < 0) ∧
    (x < 0 → (ratTrunc x : ℚ) ≠ x →
      ratTrunc x = ⌈x⌉ ∧
      pasteClipX (pasteClipY img (modf y).2).1 (modf x).2 =
        ((pasteClipY img (modf y).2).1.map (fun row => row.drop (ratTrunc (-x)).toNat), 0) ∧
      (pasteSplit img (y, x)).1 =
        (pasteClipY img (modf y).2).1.map (fun row => row.drop (ratTrunc (-x)).toNat) ∧
      (pasteSplit img (y, x)).2.2.1 = 0 ∧
      (pasteSplit img (y, x)).2.2.2.2 = x - ratTrunc x ∧
      (-1 : ℚ) < x - ratTrunc x ∧ x - ratTrunc x ≤ 0 ∧ x - ratTrunc x < 0) := by
  constructor
  · intro hneg hni
    obtain ⟨h1, -, -, h4, h5, h6⟩ := ratTrunc_neg_facts y hneg hni
    have hY := pasteClipY_neg img y hneg hni
    refine ⟨h1, hY, ?_, ?_, ?_, h4, h5, h6⟩
    · unfold pasteSplit
      dsimp only
      rw [hY]
    · unfold pasteSplit
      dsimp only
      rw [hY]
    · unfold pasteSplit modf
      dsimp only
  · intro hneg hni
    obtain ⟨h1, -, -, h4, h5, h6⟩ := ratTrunc_neg_facts x hneg hni
    have hX := pasteClipX_neg ((pasteClipY img (modf y).2).1) x hneg hni
    refine ⟨h1, hX, ?_, ?_, ?_, h4, h5, h6⟩
    · unfold pasteSplit
      dsimp only
      rw [hX]
    · unfold pasteSplit
      dsimp only
      rw [hX]
    · unfold pasteSplit modf
      dsimp only

/-- C10 witness: splitting position `(-23/10, -3/2)` clips 2 leading rows
and 1 leading column, resets both offsets to 0, and leaves the fractional
remainders `-3/10` and `-1/2`. -/
theorem pasteSplit_negative_axis_witness :
    (ratTrunc (-23/10 : ℚ) = ⌈(-23/10 : ℚ)⌉ ∧
     pasteClipY [[1, 2]] (modf (-23/10 : ℚ)).2 =
       ([[1, 2]].drop (ratTrunc (-(-23/10 : ℚ))).toNat, 0) ∧
     (pasteSplit [[1, 2]] (-23/10, -3/2)).1 =
       (pasteClipX ([[1, 2]].drop (ratTrunc (-(-23/10 : ℚ))).toNat) (modf (-3/2 : ℚ)).2).1 ∧
     (pasteSplit [[1, 2]] (-23/10, -3/2)).2.1 = 0 ∧
     (pasteSplit [[1, 2]] (-23/10, -3/2)).2.2.2.1 =
       (-23/10 : ℚ) - (ratTrunc (-23/10 : ℚ) : ℚ) ∧
     (-1 : ℚ) < (-23/10 : ℚ) - (ratTrunc (-23/10 : ℚ) : ℚ) ∧
     (-23/10 : ℚ) - (ratTrunc (-23/10 : ℚ) : ℚ) ≤ 0 ∧
     (-23/10 : ℚ) - (ratTrunc (-23/10 : ℚ) : ℚ) < 0) ∧
    (ratTrunc (-3/2 : ℚ) = ⌈(-3/2 : ℚ)⌉ ∧
     pasteClipX (pasteClipY [[1, 2]] (modf (-23/10 : ℚ)).2).1 (modf (-3/2 : ℚ)).2 =
       ((pasteClipY [[1, 2]] (modf (-23/10 : ℚ)).2).1.map
         (fun row => row.drop (ratTrunc (-(-3/2 : ℚ))).toNat), 0) ∧
     (pasteSplit [[1, 2]] (-23/10, -3/2)).1 =
       (pasteClipY [[1, 2]] (modf (-23/10 : ℚ)).2).1.map
         (fun row => row.drop (ratTrunc (-(-3/2 : ℚ))).toNat) ∧
     (pasteSplit [[1, 2]] (-23/10, -3/2)).2.2.1 = 0 ∧
     (pasteSplit [[1, 2]] (-23/10, -3/2)).2.2.2.2 =
       (-3/2 : ℚ) - (ratTrunc (-3/2 : ℚ) : ℚ) ∧
     (-1 : ℚ) < (-3/2 : ℚ) - (ratTrunc (-3/2 : ℚ) : ℚ) ∧
     (-3/2 : ℚ) - (ratTrunc (-3/2 : ℚ) : ℚ) ≤ 0 ∧
     (-3/2 : ℚ) - (ratTrunc (-3/2 : ℚ) : ℚ) < 0) := by
  have hniY : (ratTrunc (-23/10 : ℚ) : ℚ) ≠ -23/10 := by
    have hc : (⌈(-23/10 : ℚ)⌉ : ℤ) = -2 := by
      rw [Int.ceil_eq_iff]
      constructor <;> norm_num
    have ht : ratTrunc (-23/10 : ℚ) = -2 := by
      unfold ratTrunc
      rw [if_neg (by norm_num), hc]
    rw [ht]
    norm_num
  have hniX : (ratTrunc (-3/2 : ℚ) : ℚ) ≠ -3/2 := by
    have hc : (⌈(-3/2 : ℚ)⌉ : ℤ) = -1 := by
      rw [Int.ceil_eq_iff]
      constructor <;> norm_num
    have ht : ratTrunc (-3/2 : ℚ) = -1 := by
      unfold ratTrunc
      rw [if_neg (by norm_num), hc]
    rw [ht]
    norm_num
  exact ⟨(pasteSplit_negative_axis [[1, 2]] (-23/10) (-3/2)).1 (by norm_num) hniY,
         (pasteSplit_negative_axis [[1, 2]] (-23/10) (-3/2)).2 (by norm_num) hniX⟩

/-- Splitting the zero position: no fraction, no offset. -/
theorem modf_zero : modf (0 : ℚ) = (0, 0) := by
  unfold modf ratTrunc
  norm_num

/-- Evaluation helper: `pasteSplit` at position `(0, 0)` is the identity. -/
theorem pasteSplit_zero (img : Img) : pasteSplit img (0, 0) = (img, 0, 0, (0, 0)) := by
  unfold pasteSplit pasteClipY pasteClipX
  rw [modf_zero]
  norm_num

/-- C8: pasting with `debug=True` onto a `uint16` canvas whose corner pixel
holds 65000 leaves that pixel at `(65000 + 6000) % 65536 = 5464`: the
border brightening wraps around instead of saturating, and the trailing
`np.clip` call (whose result is discarded) clamps nothing — the canvas
keeps the wrapped value, which is neither the dtype maximum nor the
original value, and is visible to all subsequent processing of the canvas. -/
theorem paste_debug_wraparound :
    paste libC8 65535 [[65000, 0], [0, 0]] [[0, 0], [0, 0]] (0, 0) true =
      [[5464, 6000], [6000, 6000]] ∧
    (65000 + 6000) % 65536 = 5464 ∧ (5464 : ℕ) ≠ 65535 ∧ (5464 : ℕ) < 65000 := by
  refine ⟨?_, by norm_num, by norm_num, by norm_num⟩
  unfold paste pasteProcessed
  rw [pasteSplit_zero]
  rfl

/-- `listMinQ` is a lower bound of its list. -/
theorem listMinQ_le (l : List ℚ) (x : ℚ) (hx : x ∈ l) : listMinQ l ≤ x := by
  induction l with
  | nil => cases hx
  | cons a rest ih =>
    cases rest with
    | nil =>
      rw [List.mem_singleton] at hx
      subst hx
      exact le_refl _
    | cons b rest2 =>
      rcases List.mem_cons.mp hx with h | h
      · subst h
        exact min_le_left _ _
      · exact le_trans (min_le_right _ _) (ih h)

/-- C9 counterexample: for tiles at `(0,0)` and `(9/10, 0)` the stored
integer positions are `[(0,0), (0,0)]` (truncation), while rounding to
integer pixels would give `[(0,0), (1,0)]`. -/
theorem layer_positions_cex :
    (mkLayerAligner (fun _ => []) [] [(0, 0), (9/10, 0)]).positions = [(0, 0), (0, 0)] ∧
    specRoundedPositions [(0, 0), (9/10, 0)] = [(0, 0), (1, 0)] ∧
    ([(0, 0), (0, 0)] : List (ℤ × ℤ)) ≠ [(0, 0), (1, 0)] := by
  have horig : originOf [((0 : ℚ), (0 : ℚ)), (9/10, 0)] = (0, 0) := by
    unfold originOf
    norm_num [listMinQ]
  refine ⟨?_, ?_, by decide⟩
  · unfold mkLayerAligner
    rw [horig]
    unfold ratTrunc
    norm_num
  · unfold specRoundedPositions
    rw [horig]
    norm_num [round_eq, Prod.ext_iff]

/-- C9 (amended): for a valid tile index, the layer aligner stores the tile
position translated into the reference mosaic's frame — the metadata
position minus the element-wise minimum position — converted to integer
pixels by truncation toward zero (`astype(int)`), which equals the floor
since the offsets are nonnegative; and `register(t)` returns that stored
integer position plus the phase-correlation shift, together with the
correlation error, the tile image having been truncated via `crop_like` to
the whitened reference window's shape. -/
theorem layer_aligner_spec (read : ℕ → Img) (ref : Img) (mp : List (ℚ × ℚ))
    (lib : ImageLib) (t : ℕ) (ht : t < mp.length) :
    (mkLayerAligner read ref mp).positions.getD t (0, 0) =
      (⌊(mp.getD t (0, 0)).1 - (originOf mp).1⌋,
       ⌊(mp.getD t (0, 0)).2 - (originOf mp).2⌋) ∧
    ratTrunc ((mp.getD t (0, 0)).1 - (originOf mp).1) =
      ⌊(mp.getD t (0, 0)).1 - (originOf mp).1⌋ ∧
    ratTrunc ((mp.getD t (0, 0)).2 - (originOf mp).2) =
      ⌊(mp.getD t (0, 0)).2 - (originOf mp).2⌋ ∧
    (mkLayerAligner read ref mp).register lib t =
      (((((mkLayerAligner read ref mp).positions.getD t (0, 0)).1 : ℚ) +
          (lib.regTranslation (layerRefTile (mkLayerAligner read ref mp) lib t)
            (whiten lib (crop_like ((mkLayerAligner read ref mp).read t)
              (layerRefTile (mkLayerAligner read ref mp) lib t)))).1.1,
        (((mkLayerAligner read ref mp).positions.getD t (0, 0)).2 : ℚ) +
          (lib.regTranslation (layerRefTile (mkLayerAligner read ref mp) lib t)
            (whiten lib (crop_like ((mkLayerAligner read ref mp).read t)
              (layerRefTile (mkLayerAligner read ref mp) lib t)))).1.2),
       (lib.regTranslation (layerRefTile (mkLayerAligner read ref mp) lib t)
         (whiten lib (crop_like ((mkLayerAligner read ref mp).read t)
           (layerRefTile (mkLayerAligner read ref mp) lib t)))).2) := by
  have hmem : mp.getD t (0, 0) ∈ mp := by
    rw [List.getD_eq_getElem?_getD, List.getElem?_eq_getElem ht]
    exact List.getElem_mem ht
  have h1 : (originOf mp).1 ≤ (mp.getD t (0, 0)).1 :=
    listMinQ_le _ _ (List.mem_map_of_mem _ hmem)
  have h2 : (originOf mp).2 ≤ (mp.getD t (0, 0)).2 :=
    listMinQ_le _ _ (List.mem_map_of_mem _ hmem)
  have hf1 : ratTrunc ((mp.getD t (0, 0)).1 - (originOf mp).1) =
      ⌊(mp.getD t (0, 0)).1 - (originOf mp).1⌋ := by
    unfold ratTrunc
    rw [if_pos (sub_nonneg.mpr h1)]
  have hf2 : ratTrunc ((mp.getD t (0, 0)).2 - (originOf mp).2) =
      ⌊(mp.getD t (0, 0)).2 - (originOf mp).2⌋ := by
    unfold ratTrunc
    rw [if_pos (sub_nonneg.mpr h2)]
  refine ⟨?_, hf1, hf2, rfl⟩
  have hgd : (mkLayerAligner read ref mp).positions.getD t (0, 0) =
      (ratTrunc ((mp.getD t (0, 0)).1 - (originOf mp).1),
       ratTrunc ((mp.getD t (0, 0)).2 - (originOf mp).2)) := by
    unfold mkLayerAligner
    simp only [List.getD_eq_getElem?_getD, List.getElem?_map,
      List.getElem?_eq_getElem ht]
    simp
  rw [hgd, hf1, hf2]

/-- C9 witness: the amended statement evaluated for tile 1 of the layer
whose metadata positions are `(0,0)` and `(9/10, 0)`. -/
theorem layer_aligner_spec_witness :
    (mkLayerAligner (fun _ => [[1]]) [[1]] [(0, 0), (9/10, 0)]).positions.getD 1 (0, 0) = (⌊([((0 : ℚ), (0 : ℚ)), (9/10, 0)].getD 1 (0, 0)).1 - (originOf [(0, 0), (9/10, 0)]).1⌋, ⌊([((0 : ℚ), (0 : ℚ)), (9/10, 0)].getD 1 (0, 0)).2 - (originOf [(0, 0), (9/10, 0)]).2⌋) ∧
    ratTrunc (([((0 : ℚ), (0 : ℚ)), (9/10, 0)].getD 1 (0, 0)).1 - (originOf [(0, 0), (9/10, 0)]).1) = ⌊([((0 : ℚ), (0 : ℚ)), (9/10, 0)].getD 1 (0, 0)).1 - (originOf [(0, 0), (9/10, 0)]).1⌋ ∧
    ratTrunc (([((0 : ℚ), (0 : ℚ)), (9/10, 0)].getD 1 (0, 0)).2 - (originOf [(0, 0), (9/10, 0)]).2) = ⌊([((0 : ℚ), (0 : ℚ)), (9/10, 0)].getD 1 (0, 0)).2 - (originOf [(0, 0), (9/10, 0)]).2⌋ ∧
    (mkLayerAligner (fun _ => [[1]]) [[1]] [(0, 0), (9/10, 0)]).register libEx 1 =
      ((((mkLayerAligner (fun _ => [[1]]) [[1]] [(0, 0), (9/10, 0)]).positions.getD 1 (0, 0)).1 + (libEx.regTranslation (layerRefTile (mkLayerAligner (fun _ => [[1]]) [[1]] [(0, 0), (9/10, 0)]) libEx 1) (whiten libEx (crop_like ((mkLayerAligner (fun _ => [[1]]) [[1]] [(0, 0), (9/10, 0)]).read 1) (layerRefTile (mkLayerAligner (fun _ => [[1]]) [[1]] [(0, 0), (9/10, 0)]) libEx 1)))).1.1,
        (((mkLayerAligner (fun _ => [[1]]) [[1]] [(0, 0), (9/10, 0)]).positions.getD 1 (0, 0)).2 : ℚ) + (libEx.regTranslation (layerRefTile (mkLayerAligner (fun _ => [[1]]) [[1]] [(0, 0), (9/10, 0)]) libEx 1) (whiten libEx (crop_like ((mkLayerAligner (fun _ => [[1]]) [[1]] [(0, 0), (9/10, 0)]).read 1) (layerRefTile (mkLayerAligner (fun _ => [[1]]) [[1]] [(0, 0), (9/10, 0)]) libEx 1)))).1.2),
       (libEx.regTranslation (layerRefTile (mkLayerAligner (fun _ => [[1]]) [[1]] [(0, 0), (9/10, 0)]) libEx 1) (whiten libEx (crop_like ((mkLayerAligner (fun _ => [[1]]) [[1]] [(0, 0), (9/10, 0)]).read 1) (layerRefTile (mkLayerAligner (fun _ => [[1]]) [[1]] [(0, 0), (9/10, 0)]) libEx 1)))).2) :=
  layer_aligner_spec (fun _ => [[1]]) [[1]] [(0, 0), (9/10, 0)] libEx 1 (by norm_num)

/-- A uniform row length equals the measured `imgWidth`. -/
theorem uniform_imgWidth {l : List (List α)} {w : ℕ} (h : ∀ row ∈ l, row.length = w) :
    ∀ row ∈ l, row.length = imgWidth l := by
  intro row hr
  cases l with
  | nil => cases hr
  | cons a rest =>
    have hw : imgWidth (a :: rest) = a.length := rfl
    rw [hw, h row hr, h a (List.mem_cons_self _ _)]

/-- Members of a `zipWith` come from members of both lists. -/
theorem of_mem_zipWith {f : α → β → γ} {l1 : List α} {l2 : List β} {c : γ}
    (hc : c ∈ List.zipWith f l1 l2) : ∃ a b, a ∈ l1 ∧ b ∈ l2 ∧ c = f a b := by
  induction l1 generalizing l2 with
  | nil => cases hc
  | cons a as ih =>
    cases l2 with
    | nil => cases hc
    | cons b bs =>
      rcases List.mem_cons.mp hc with h | h
      · exact ⟨a, b, List.mem_cons_self _ _, List.mem_cons_self _ _, h⟩
      · obtain ⟨a2, b2, ha, hb, hf⟩ := ih h
        exact ⟨a2, b2, List.mem_cons_of_mem _ ha, List.mem_cons_of_mem _ hb, hf⟩

/-- The clipped source of `pasteSplit` keeps uniform row lengths. -/
theorem pasteSplit_rect (img : Img) (pos : ℚ × ℚ) (w : ℕ)
    (himg : ∀ row ∈ img, row.length = w) :
    ∀ row ∈ (pasteSplit img pos).1, row.length = imgWidth (pasteSplit img pos).1 := by
  have h1 : ∀ row ∈ (pasteClipY img (modf pos.1).2).1, row.length = w := by
    unfold pasteClipY
    split
    · intro row hr
      exact himg row (List.mem_of_mem_drop hr)
    · exact himg
  unfold pasteSplit pasteClipX
  split
  · rename_i hneg
    have hu : ∀ row ∈ (pasteClipY img (modf pos.1).2).1.map
        (fun row => row.drop (-(modf pos.2).2).toNat),
        row.length = w - (-(modf pos.2).2).toNat := by
      intro row hr
      obtain ⟨r0, hr0, hmap⟩ := List.mem_map.mp hr
      rw [← hmap, List.length_drop, h1 r0 hr0]
    exact uniform_imgWidth hu
  · exact uniform_imgWidth h1

/-- Row count of a 2-D slice. -/
theorem slice2_length (t : List (List α)) (yi xi h w : ℕ) :
    (slice2 t yi xi h w).length = min h (t.length - yi) := by
  simp [slice2]

/-- Row lengths of a 2-D slice of a rectangular canvas. -/
theorem slice2_rect (t : List (List α)) (yi xi h w W : ℕ)
    (htW : ∀ row ∈ t, row.length = W) :
    ∀ row ∈ slice2 t yi xi h w, row.length = min w (W - xi) := by
  intro row hr
  unfold slice2 at hr
  obtain ⟨r0, hr0, hmap⟩ := List.mem_map.mp hr
  have hmem : r0 ∈ t := List.mem_of_mem_drop (List.mem_of_mem_take hr0)
  rw [← hmap, List.length_take, List.length_drop, htW r0 hmem]

/-- Row count of `crop_like`. -/
theorem crop_like_length (img : Img) (ts : List (List β)) :
    (crop_like img ts).length = min img.length ts.length := by
  unfold crop_like crop_rows imgHeight
  split
  · split <;> simp [List.length_take] <;> omega
  · split <;> simp [List.length_take] <;> omega

/-- Row membership facts for `crop_rows`. -/
theorem crop_rows_rect (img : Img) (ts : List (List β)) (w : ℕ)
    (himg : ∀ row ∈ img, row.length = w) :
    ∀ row ∈ crop_rows img ts, row.length = w := by
  unfold crop_rows
  split
  · intro row hr
    exact himg row (List.mem_of_mem_take hr)
  · exact himg

/-- Row lengths of `crop_like` applied to a uniformly wide image. -/
theorem crop_like_rect (img : Img) (ts : List (List β)) (w : ℕ)
    (himg : ∀ row ∈ img, row.length = w) :
    ∀ row ∈ crop_like img ts, row.length = min w (imgWidth ts) := by
  have h2 := crop_rows_rect img ts w himg
  intro row hr
  unfold crop_like at hr
  by_cases hcase : imgWidth ts < imgWidth (crop_rows img ts)
  · rw [if_pos hcase] at hr
    obtain ⟨r0, hr0, hmap⟩ := List.mem_map.mp hr
    have hw2 : imgWidth (crop_rows img ts) = w := by
      cases heq : crop_rows img ts with
      | nil => rw [heq] at hr0; cases hr0
      | cons a rest =>
        have ha := h2 a (by rw [heq]; exact List.mem_cons_self _ _)
        simpa [imgWidth] using ha
    rw [hw2] at hcase
    rw [← hmap, List.length_take, h2 r0 hr0]
    omega
  · rw [if_neg hcase] at hr
    have hw2 : imgWidth (crop_rows img ts) = w := by
      cases heq : crop_rows img ts with
      | nil => rw [heq] at hr; cases hr
      | cons a rest =>
        have ha := h2 a (by rw [heq]; exact List.mem_cons_self _ _)
        simpa [imgWidth] using ha
    rw [hw2] at hcase
    rw [h2 row hr]
    omega

/-- Writing an empty block back into a canvas changes nothing. -/
theorem setRegion_nil (t : NatImg) (yi xi : ℕ) : setRegion t yi xi [] = t := by
  unfold setRegion
  simp

/-- The `setRegion` row splice with an all-empty-row block keeps each row. -/
theorem zipWith_paste_empty_rows (xi : ℕ) (s : NatImg)
    (hs : ∀ row ∈ s, row.length = 0) (L : NatImg) :
    List.zipWith (fun row srow => row.take xi ++ srow ++ row.drop (xi + srow.length)) L s =
      L.take s.length := by
  induction s generalizing L with
  | nil => simp
  | cons srow rest ih =>
    cases L with
    | nil => simp
    | cons row Lr =>
      have hsr : srow = [] := List.eq_nil_of_length_eq_zero (hs srow (List.mem_cons_self _ _))
      simp only [List.zipWith_cons_cons, List.length_cons, List.take_succ_cons]
      rw [ih (fun r hr => hs r (List.mem_cons_of_mem _ hr)), hsr]
      simp

/-- Writing a block whose rows are all empty changes nothing. -/
theorem setRegion_empty_rows (t : NatImg) (yi xi : ℕ) (s : NatImg)
    (hs : ∀ row ∈ s, row.length = 0) : setRegion t yi xi s = t := by
  unfold setRegion
  rw [zipWith_paste_empty_rows xi s hs, List.take_take]
  simp only [min_self]
  have hsplit : (t.drop yi).take s.length ++ t.drop (yi + s.length) = t.drop yi := by
    have hdd : t.drop (yi + s.length) = (t.drop yi).drop s.length := by
      rw [List.drop_drop]
    rw [hdd, List.take_append_drop]
  rw [List.append_assoc, hsplit, List.take_append_drop]

/-- Pixels of a 2-D slice come from the canvas at the offset position. -/
theorem slice2_pix (t : NatImg) (yi xi h w i j : ℕ) (hi : i < h) (hj : j < w) :
    pixN (slice2 t yi xi h w) i j = pixN t (yi + i) (xi + j) := by
  unfold slice2 pixN pix2
  simp only [List.getD_eq_getElem?_getD, List.getElem?_map]
  rw [List.getElem?_take_of_lt hi, List.getElem?_drop]
  cases t[yi + i]? with
  | none => simp
  | some row =>
    simp only [Option.map_some', Option.getD_some]
    rw [List.getElem?_take_of_lt hj, List.getElem?_drop]

/-- Pixels of `maxBlend` are the pointwise maximum, inside the common
extent of the two blocks. -/
theorem maxBlend_pix (s nimg : NatImg) (i j : ℕ)
    (hi1 : i < s.length) (hi2 : i < nimg.length)
    (hj1 : j < (s.getD i []).length) (hj2 : j < (nimg.getD i []).length) :
    pixN (maxBlend s nimg) i j = max (pixN s i j) (pixN nimg i j) := by
  have hsg : s.getD i [] = s[i] := by
    rw [List.getD_eq_getElem?_getD, List.getElem?_eq_getElem hi1, Option.getD_some]
  have hng : nimg.getD i [] = nimg[i] := by
    rw [List.getD_eq_getElem?_getD, List.getElem?_eq_getElem hi2, Option.getD_some]
  rw [hsg] at hj1
  rw [hng] at hj2
  unfold maxBlend pixN pix2
  simp only [List.getD_eq_getElem?_getD]
  rw [List.getElem?_zipWith', List.getElem?_eq_getElem hi1, List.getElem?_eq_getElem hi2]
  simp only [Option.map_some', Option.some_bind, Option.getD_some]
  rw [List.getElem?_zipWith', List.getElem?_eq_getElem hj1, List.getElem?_eq_getElem hj2]
  simp only [Option.map_some', Option.some_bind, Option.getD_some]

/-- Pointwise description of `setRegion`: inside the written rectangle the
canvas holds the block's pixel, outside it is unchanged.  Requires the
block's rows to have uniform width `sw` and the rectangle to fit in the
canvas. -/
theorem setRegion_pix (t : NatImg) (yi xi : ℕ) (s : NatImg) (sw : ℕ)
    (hs : ∀ row ∈ s, row.length = sw)
    (hrows : yi + s.length ≤ t.length)
    (hcols : ∀ row ∈ t, xi + sw ≤ row.length)
    (r c : ℕ) :
    pixN (setRegion t yi xi s) r c =
      if yi ≤ r ∧ r < yi + s.length ∧ xi ≤ c ∧ c < xi + sw then
        pixN s (r - yi) (c - xi)
      else pixN t r c := by
  unfold setRegion pixN pix2
  have hA : (t.take yi).length = yi := by
    rw [List.length_take]; omega
  have hBlen : (List.zipWith (fun row srow => row.take xi ++ srow ++ row.drop (xi + srow.length))
      ((t.drop yi).take s.length) s).length = s.length := by
    rw [List.length_zipWith, List.length_take, List.length_drop]; omega
  rcases Nat.lt_or_ge r yi with hr1 | hr1
  · -- r in the untouched prefix rows
    rw [if_neg (by omega)]
    simp only [List.getD_eq_getElem?_getD]
    rw [List.getElem?_append_left (by rw [List.length_append, hA, hBlen]; omega),
        List.getElem?_append_left (by rw [hA]; omega),
        List.getElem?_take_of_lt hr1]
  · rcases Nat.lt_or_ge r (yi + s.length) with hr2 | hr2
    · -- r among the written rows
      have hi : r - yi < s.length := by omega
      have hrt : r < t.length := by omega
      have hsrlen : (s.getD (r - yi) []).length = sw := by
        rw [List.getD_eq_getElem?_getD, List.getElem?_eq_getElem hi, Option.getD_some]
        exact hs _ (List.getElem_mem hi)
      have hrowlen : xi + sw ≤ (t.getD r []).length := by
        rw [List.getD_eq_getElem?_getD, List.getElem?_eq_getElem hrt, Option.getD_some]
        exact hcols _ (List.getElem_mem hrt)
      simp only [List.getD_eq_getElem?_getD]
      rw [List.getElem?_append_left (by rw [List.length_append, hA, hBlen]; omega),
          List.getElem?_append_right (by rw [hA]; omega), hA,
          List.getElem?_zipWith', List.getElem?_take_of_lt hi, List.getElem?_drop,
          show yi + (r - yi) = r by omega,
          List.getElem?_eq_getElem hrt, List.getElem?_eq_getElem hi]
      simp only [Option.map_some', Option.some_bind, Option.getD_some]
      rw [List.getD_eq_getElem?_getD, List.getElem?_eq_getElem hi, Option.getD_some] at hsrlen
      rw [List.getD_eq_getElem?_getD, List.getElem?_eq_getElem hrt, Option.getD_some] at hrowlen
      have htake : ((t[r]).take xi).length = xi := by
        rw [List.length_take]; omega
      rcases Nat.lt_or_ge c xi with hc1 | hc1
      · rw [if_neg (by omega)]
        rw [List.getElem?_append_left (by rw [List.length_append, htake, hsrlen]; omega),
            List.getElem?_append_left (by rw [htake]; omega),
            List.getElem?_take_of_lt hc1]
      · rcases Nat.lt_or_ge c (xi + sw) with hc2 | hc2
        · rw [if_pos ⟨by omega, by omega, by omega, by omega⟩]
          rw [List.getElem?_append_left (by rw [List.length_append, htake, hsrlen]; omega),
              List.getElem?_append_right (by rw [htake]; omega), htake]
        · rw [if_neg (by omega)]
          rw [List.getElem?_append_right (by rw [List.length_append, htake, hsrlen]; omega),
              List.length_append, htake, hsrlen, List.getElem?_drop,
              show xi + sw + (c - (xi + sw)) = c by omega]
    · -- r in the untouched suffix rows
      rw [if_neg (by omega)]
      simp only [List.getD_eq_getElem?_getD]
      rw [List.getElem?_append_right (by rw [List.length_append, hA, hBlen]; omega),
          List.length_append, hA, hBlen, List.getElem?_drop,
          show yi + s.length + (r - (yi + s.length)) = r by omega]

/-- Row lengths are preserved by per-pixel maps. -/
theorem mapmap_rect {f : ℚ → β} {l : List (List ℚ)} {w : ℕ}
    (h : ∀ row ∈ l, row.length = w) : ∀ row ∈ l.map (List.map f), row.length = w := by
  intro row hr
  obtain ⟨r0, hr0, hmap⟩ := List.mem_map.mp hr
  rw [← hmap, List.length_map]
  exact h r0 hr0

/-- C6: with `debug=False`, `paste` composites the processed source — the
edge-clipped image truncated to the available target slice, sub-pixel
shifted, clamped to `[0, 1]` and converted to the canvas dtype — by
maximum-intensity blending: every canvas pixel inside the written rectangle
becomes the maximum of its previous value and the converted source pixel,
and every pixel outside that rectangle is unchanged.  The canvas and the
source are rectangular, and the resampling primitive preserves shape on
rectangular inputs. -/
theorem paste_pointwise (lib : ImageLib) (imax : ℕ) (target : NatImg) (img : Img)
    (pos : ℚ × ℚ) (W : ℕ)
    (htW : ∀ row ∈ target, row.length = W)
    (himg : ∀ row ∈ img, row.length = imgWidth img)
    (hshift : ∀ i p w, (∀ row ∈ i, row.length = w) →
      (lib.ndShift i p).length = i.length ∧ ∀ row ∈ lib.ndShift i p, row.length = w)
    (nimg ts : NatImg) (yi xi : ℕ)
    (hproc : pasteProcessed lib target img pos = (nimg, yi, xi, ts))
    (r c : ℕ) :
    pixN (paste lib imax target img pos false) r c =
      if yi ≤ r ∧ r < yi + nimg.length ∧ xi ≤ c ∧ c < xi + imgWidth nimg then
        max (pixN target r c) (pixN nimg (r - yi) (c - xi))
      else pixN target r c := by
  have hpaste : paste lib imax target img pos false = setRegion target yi xi (maxBlend ts nimg) := by
    unfold paste
    rw [hproc]
    rfl
  rw [hpaste]
  rcases hsplit : pasteSplit img pos with ⟨img1, yi1, xi1, pf⟩
  have hproc2 : pasteProcessed lib target img pos =
      ((clip01 (lib.ndShift
          (crop_like img1 (slice2 target yi1 xi1 img1.length (imgWidth img1))) pf)).map
            (List.map lib.convert),
       yi1, xi1, slice2 target yi1 xi1 img1.length (imgWidth img1)) := by
    unfold pasteProcessed
    rw [hsplit]
    rfl
  rw [hproc] at hproc2
  simp only [Prod.mk.injEq] at hproc2
  obtain ⟨hnimg, hyi, hxi, hts⟩ := hproc2
  subst hyi
  subst hxi
  -- rectangularity of the clipped source
  have himg1 : ∀ row ∈ img1, row.length = imgWidth img1 := by
    have h0 := pasteSplit_rect img pos (imgWidth img) himg
    rw [hsplit] at h0
    exact h0
  -- the target slice
  have hts_len : ts.length = min img1.length (target.length - yi) := by
    rw [hts, slice2_length]
  have hts_rect : ∀ row ∈ ts, row.length = min (imgWidth img1) (W - xi) := by
    rw [hts]
    exact slice2_rect target yi xi img1.length (imgWidth img1) W htW
  -- the cropped source
  have himg2 : ∀ row ∈ crop_like img1 (slice2 target yi xi img1.length (imgWidth img1)),
      row.length = min (imgWidth img1)
        (imgWidth (slice2 target yi xi img1.length (imgWidth img1))) :=
    crop_like_rect img1 _ (imgWidth img1) himg1
  obtain ⟨hshift_len, hshift_rect⟩ := hshift
    (crop_like img1 (slice2 target yi xi img1.length (imgWidth img1))) pf
    (min (imgWidth img1) (imgWidth (slice2 target yi xi img1.length (imgWidth img1)))) himg2
  -- the converted source block
  have hnimg_len : nimg.length = ts.length := by
    rw [hnimg, hts, List.length_map]
    unfold clip01
    rw [List.length_map, hshift_len, crop_like_length, slice2_length]
    omega
  have hnimg_rect : ∀ row ∈ nimg, row.length = min (imgWidth img1)
      (imgWidth (slice2 target yi xi img1.length (imgWidth img1))) := by
    rw [hnimg]
    exact mapmap_rect (mapmap_rect hshift_rect)
  by_cases hempty : nimg = []
  · -- the block is empty: nothing is written
    have hblend : maxBlend ts nimg = [] := by
      rw [hempty]
      exact List.zipWith_nil_right
    rw [hblend, setRegion_nil, if_neg (by rw [hempty]; simp; omega)]
  · have hnl : 0 < nimg.length := List.length_pos.mpr hempty
    have hsw_eq : imgWidth nimg = min (imgWidth img1)
        (imgWidth (slice2 target yi xi img1.length (imgWidth img1))) := by
      cases hn : nimg with
      | nil => exact absurd hn hempty
      | cons a rest =>
        have ha := hnimg_rect a (by rw [hn]; exact List.mem_cons_self _ _)
        exact ha
    by_cases hsw0 : imgWidth nimg = 0
    · -- the block's rows are all empty: nothing is written
      have hbrows : ∀ row ∈ maxBlend ts nimg, row.length = 0 := by
        intro row hr
        obtain ⟨a, b, ha, hb, hf⟩ := of_mem_zipWith hr
        have hb2 := hnimg_rect b hb
        rw [hf, List.length_zipWith]
        rw [← hsw_eq] at hb2
        omega
      rw [setRegion_empty_rows _ _ _ _ hbrows, if_neg (by omega)]
    · -- main case: the written rectangle is nonempty
      have htsne : ts ≠ [] := by
        intro h0
        rw [h0] at hnimg_len
        simp at hnimg_len
        exact hempty hnimg_len
      have htsw : imgWidth (slice2 target yi xi img1.length (imgWidth img1)) =
          min (imgWidth img1) (W - xi) := by
        cases hn : ts with
        | nil => exact absurd hn htsne
        | cons a rest =>
          have ha := hts_rect a (by rw [hn]; exact List.mem_cons_self _ _)
          rw [hts] at hn
          rw [hn]
          exact ha
      have hsw : imgWidth nimg = min (imgWidth img1) (W - xi) := by
        rw [hsw_eq, htsw]
        omega
      have hblen : (maxBlend ts nimg).length = nimg.length := by
        unfold maxBlend
        rw [List.length_zipWith]
        omega
      have hbrect : ∀ row ∈ maxBlend ts nimg, row.length = imgWidth nimg := by
        intro row hr
        obtain ⟨a, b, ha, hb, hf⟩ := of_mem_zipWith hr
        have h1 := hts_rect a ha
        have h2 := hnimg_rect b hb
        rw [hf, List.length_zipWith, h1, h2, ← hsw_eq, hsw]
        omega
      have hrows : yi + (maxBlend ts nimg).length ≤ target.length := by
        rw [hblen]
        omega
      have hcols : ∀ row ∈ target, xi + imgWidth nimg ≤ row.length := by
        intro row hr
        rw [htW row hr, hsw]
        have h0 : 0 < imgWidth nimg := Nat.pos_of_ne_zero hsw0
        rw [hsw] at h0
        omega
      rw [setRegion_pix target yi xi (maxBlend ts nimg) (imgWidth nimg) hbrect hrows hcols r c,
        hblen]
      by_cases hcond : yi ≤ r ∧ r < yi + nimg.length ∧ xi ≤ c ∧ c < xi + imgWidth nimg
      · rw [if_pos hcond, if_pos hcond]
        obtain ⟨hc1, hc2, hc3, hc4⟩ := hcond
        have hi1 : r - yi < ts.length := by omega
        have hi2 : r - yi < nimg.length := by omega
        have hj1 : c - xi < (ts.getD (r - yi) []).length := by
          rw [List.getD_eq_getElem?_getD, List.getElem?_eq_getElem hi1, Option.getD_some,
            hts_rect _ (List.getElem_mem hi1)]
          rw [hsw] at hc4
          omega
        have hj2 : c - xi < (nimg.getD (r - yi) []).length := by
          rw [List.getD_eq_getElem?_getD, List.getElem?_eq_getElem hi2, Option.getD_some,
            hnimg_rect _ (List.getElem_mem hi2), ← hsw_eq]
          omega
        rw [maxBlend_pix ts nimg (r - yi) (c - xi) hi1 hi2 hj1 hj2]
        have hi1b : r - yi < img1.length := by
          rw [hts_len] at hi1
          omega
        have hj1b : c - xi < imgWidth img1 := by
          rw [hsw] at hc4
          omega
        have hslice : pixN ts (r - yi) (c - xi) = pixN target r c := by
          rw [hts, slice2_pix target yi xi img1.length (imgWidth img1) (r - yi) (c - xi) hi1b hj1b,
            show yi + (r - yi) = r by omega, show xi + (c - xi) = c by omega]
        rw [hslice]
      · rw [if_neg hcond, if_neg hcond]

/-- Splitting the position `(0, 1)`: integer offset 1 in `x`, no fraction. -/
theorem pasteSplit_zero_one (img : Img) :
    pasteSplit img (0, 1) = (img, 0, 1, (0, 0)) := by
  have hm1 : modf (1 : ℚ) = (0, 1) := by
    unfold modf ratTrunc
    norm_num
  unfold pasteSplit pasteClipY pasteClipX
  rw [modf_zero, hm1]
  norm_num

/-- Evaluation helper: the paste pipeline for a 1×1 source at `(0, 1)` on a
2×2 canvas with `libEx`. -/
theorem pasteProcessed_ex :
    pasteProcessed libEx [[1, 2], [3, 4]] [[1/2]] (0, 1) = ([[0]], 0, 1, [[2]]) := by
  unfold pasteProcessed
  rw [pasteSplit_zero_one]
  rfl

/-- C6 witness: the pointwise characterization evaluated at the in-region
pixel `(0, 1)` of a concrete 2×2 canvas. -/
theorem paste_pointwise_witness :
    pixN (paste libEx 255 [[1, 2], [3, 4]] [[1/2]] (0, 1) false) 0 1 =
      if 0 ≤ 0 ∧ 0 < 0 + ([[0]] : NatImg).length ∧ 1 ≤ 1 ∧ 1 < 1 + imgWidth ([[0]] : NatImg) then
        max (pixN [[1, 2], [3, 4]] 0 1) (pixN [[0]] (0 - 0) (1 - 1))
      else pixN [[1, 2], [3, 4]] 0 1 :=
  paste_pointwise libEx 255 [[1, 2], [3, 4]] [[1/2]] (0, 1) 2
    (by
      intro row hr
      simp only [List.mem_cons, List.not_mem_nil, or_false] at hr
      rcases hr with h | h <;> subst h <;> rfl)
    (by
      intro row hr
      simp only [List.mem_cons, List.not_mem_nil, or_false] at hr
      subst hr
      rfl)
    (fun i p w h => ⟨rfl, h⟩)
    [[0]] [[2]] 0 1 pasteProcessed_ex 0 1
